import Mathlib

/-!
Verification of the basket pricing and order-construction engine of the
repository (backend/app/basket_service.py, backend/app/models.py).

Dollar amounts and prices are modelled as exact rationals (ℚ); Python's
`round(x, 4)` is modelled as round-half-to-even at 4 decimal places on ℚ,
and `f"{x:.4f}"` as decimal rendering of the half-even rounding at 4
decimal places.  Strings are modelled as Lean `String`s; the `rstrip` /
`in` operations of Python are modelled over the underlying character
lists.  The Kalshi exchange (network) is modelled as an explicit
environment: a snapshot lookup function for `get_markets` and a
`List → Except String BatchResponse` function for `batch_create_orders`
(an `Except.error` models a raised exception).  The fresh
`uuid.uuid4().hex[:8]` suffix drawn for each translated order is modelled
by an explicit stream `sfx : ℕ → String` of suffixes.
-/

namespace Basket

/-- models.py: `Direction = Literal["BUY_YES", "BUY_NO", "SELL_YES", "SELL_NO"]`. -/
inductive Direction where
  | BUY_YES
  | BUY_NO
  | SELL_YES
  | SELL_NO
deriving DecidableEq, Repr

/-- models.py: `class BasketLeg`. -/
structure BasketLeg where
  market_ticker : String
  event_ticker : String
  title : String
  direction : Direction
  weight : ℚ
  enabled : Bool
deriving DecidableEq, Repr

/-- models.py: `class BasketTheme`. -/
structure BasketTheme where
  theme_id : String
  name : String
  description : String
  legs : List BasketLeg
deriving DecidableEq, Repr

/-- models.py: `class LegOverride` (sparse patch). -/
structure LegOverride where
  enabled : Option Bool
  direction : Option Direction
  weight : Option ℚ
deriving DecidableEq, Repr

/-- A market snapshot dict as consumed by basket_service.py, with the
dollar price fields already put through `_parse_dollars` (absent or
unparseable values are `none`). -/
structure MarketSnapshot where
  status : Option String
  yes_bid_dollars : Option ℚ
  yes_ask_dollars : Option ℚ
  no_bid_dollars : Option ℚ
  no_ask_dollars : Option ℚ
deriving DecidableEq, Repr

/-- models.py: `class BasketOrderPreviewLeg`. -/
structure BasketOrderPreviewLeg where
  market_ticker : String
  title : String
  direction : Direction
  price_dollars : ℚ
  contracts : ℤ
  est_cost_dollars : ℚ
  warnings : List String
deriving DecidableEq, Repr

/-- models.py: `class BasketOrderPreview`. -/
structure BasketOrderPreview where
  total_budget_dollars : ℚ
  legs : List BasketOrderPreviewLeg
  est_total_cost_dollars : ℚ
  warnings : List String
deriving DecidableEq, Repr

/-- Python `round(q * 10^4) / 10^4` needs an integer round-half-to-even. -/
def roundHalfEven (q : ℚ) : ℤ :=
  let f : ℤ := ⌊q⌋
  let r : ℚ := q - (f : ℚ)
  if r < 1 / 2 then f
  else if 1 / 2 < r then f + 1
  else if f % 2 = 0 then f else f + 1

/-- basket_service.py `round(cost, 4)`: round-half-to-even at 4 decimals. -/
def round4 (q : ℚ) : ℚ := (roundHalfEven (q * 10000) : ℚ) / 10000

/-- basket_service.py line 17: `TRADABLE_STATUSES = {"active", "open"}`,
used by `_is_tradable`: `(market.get("status") or "").lower() in TRADABLE_STATUSES`. -/
def isTradable (m : MarketSnapshot) : Bool :=
  let s := (m.status.getD "").toLower
  s = "active" || s = "open"

/-- basket_service.py `_pick_price_dollars` (ask for buy, bid for sell). -/
def pickPriceDollars (m : MarketSnapshot) (d : Direction) : Option ℚ :=
  match d with
  | .BUY_YES => m.yes_ask_dollars
  | .SELL_YES => m.yes_bid_dollars
  | .BUY_NO => m.no_ask_dollars
  | .SELL_NO => m.no_bid_dollars

/-- basket_service.py `_apply_overrides`: per-leg patch, weight clamped to
`[0, 1]`; a missing override leaves the (copied) leg untouched. -/
def applyOverrides (legs : List BasketLeg) (overrides : String → Option LegOverride) :
    List BasketLeg :=
  legs.map fun leg =>
    match overrides leg.market_ticker with
    | none => leg
    | some o =>
        { leg with
          enabled := o.enabled.getD leg.enabled
          direction := o.direction.getD leg.direction
          weight := match o.weight with
            | none => leg.weight
            | some w => max 0 (min 1 w) }

/-- basket_service.py line 70: `total = sum(l.weight for l in enabled)`. -/
def enabledWeightSum (legs : List BasketLeg) : ℚ :=
  ((legs.filter (·.enabled)).map (·.weight)).sum

/-- basket_service.py `_normalize_weights`: if the enabled-weight total is
`≤ 0` leave all weights unchanged, otherwise divide every enabled leg's
weight by the total (disabled legs untouched). -/
def normalizeWeights (legs : List BasketLeg) : List BasketLeg :=
  let total := enabledWeightSum legs
  if total ≤ 0 then legs
  else legs.map fun l => if l.enabled then { l with weight := l.weight / total } else l

/-- The Python f-string `f"Market not tradable (status={m.get('status')})."`
renders `None` as the literal text `None`. -/
def statusText (m : MarketSnapshot) : String :=
  match m.status with
  | none => "None"
  | some s => s

/-- The body of the per-leg loop of `preview` (basket_service.py lines
98-146): price one enabled leg against the fetched snapshots. -/
def priceLeg (total_budget_dollars : ℚ) (snapshots : String → Option MarketSnapshot)
    (leg : BasketLeg) : BasketOrderPreviewLeg :=
  match snapshots leg.market_ticker with
  | none =>
      { market_ticker := leg.market_ticker
        title := leg.title
        direction := leg.direction
        price_dollars := 0
        contracts := 0
        est_cost_dollars := 0
        warnings := ["Market not found."] }
  | some m =>
      let w0 : List String :=
        if isTradable m then []
        else ["Market not tradable (status=" ++ statusText m ++ ")."]
      match pickPriceDollars m leg.direction with
      | none =>
          { market_ticker := leg.market_ticker
            title := leg.title
            direction := leg.direction
            price_dollars := 0
            contracts := 0
            est_cost_dollars := 0
            warnings := w0 ++ ["Missing or invalid bid/ask."] }
      | some price =>
          if price ≤ 0 then
            { market_ticker := leg.market_ticker
              title := leg.title
              direction := leg.direction
              price_dollars := 0
              contracts := 0
              est_cost_dollars := 0
              warnings := w0 ++ ["Missing or invalid bid/ask."] }
          else
            let leg_budget := total_budget_dollars * leg.weight
            let contracts : ℤ := ⌊leg_budget / price⌋
            let warnings :=
              if contracts < 1 then w0 ++ ["Budget too small for at least 1 contract."]
              else w0
            let cost : ℚ := if 1 ≤ contracts then (contracts : ℚ) * price else 0
            { market_ticker := leg.market_ticker
              title := leg.title
              direction := leg.direction
              price_dollars := price
              contracts := max 0 contracts
              est_cost_dollars := round4 cost
              warnings := warnings }

/-- The enabled legs of the working list after overrides and weight
renormalization: exactly the legs the `for leg in enabled:` loop of
`preview` iterates over (the loop list is built before `_normalize_weights`
but holds the same mutated objects, so it carries the normalized weights). -/
def enabledNormalized (theme : BasketTheme) (overrides : String → Option LegOverride) :
    List BasketLeg :=
  (normalizeWeights (applyOverrides theme.legs overrides)).filter (·.enabled)

/-- basket_service.py `preview`. -/
def preview (theme : BasketTheme) (total_budget_dollars : ℚ)
    (overrides : String → Option LegOverride)
    (snapshots : String → Option MarketSnapshot) : BasketOrderPreview :=
  let legs := applyOverrides theme.legs overrides
  let enabled := legs.filter (·.enabled)
  if enabled.isEmpty then
    { total_budget_dollars := total_budget_dollars
      legs := []
      est_total_cost_dollars := 0
      warnings := ["No legs enabled."] }
  else
    let preview_legs := (enabledNormalized theme overrides).map
      (priceLeg total_budget_dollars snapshots)
    let est_total := (preview_legs.map (·.est_cost_dollars)).sum
    { total_budget_dollars := total_budget_dollars
      legs := preview_legs
      est_total_cost_dollars := round4 est_total
      warnings := [] }

/-- Decimal digit characters of a natural number, most significant first,
by repeated division (structural fuel so that everything evaluates). -/
def digitsAux : ℕ → ℕ → List Char
  | 0, _ => []
  | fuel + 1, n =>
      if n < 10 then [Nat.digitChar n]
      else digitsAux fuel (n / 10) ++ [Nat.digitChar (n % 10)]

/-- Decimal digit characters of a natural number, most significant first. -/
def digitsOf (n : ℕ) : List Char := digitsAux (n + 1) n

/-- Left-pad the digits of a fractional part to width 4 with zeros. -/
def pad4 (n : ℕ) : List Char :=
  List.replicate (4 - (digitsOf n).length) '0' ++ digitsOf n

/-- Python `f"{x:.4f}"`: the value rounded half-to-even at 4 decimals,
rendered with exactly 4 fractional digits (as a character list). -/
def format4fChars (q : ℚ) : List Char :=
  let n : ℤ := roundHalfEven (q * 10000)
  let a : ℕ := n.natAbs
  (if n < 0 then ['-'] else []) ++ digitsOf (a / 10000) ++ '.' :: pad4 (a % 10000)

/-- Python `s.rstrip(c)` for a single strip character, over char lists. -/
def rstripC (c : Char) (l : List Char) : List Char :=
  (l.reverse.dropWhile (· == c)).reverse

/-- basket_service.py lines 161-163: format the dollar price, strip
trailing zeros, strip a trailing point, and restore `".0"` when the point
was removed entirely (as a character list). -/
def priceStrChars (q : ℚ) : List Char :=
  let s1 := rstripC '0' (format4fChars q)
  let s2 := rstripC '.' s1
  if '.' ∈ s2 then s2 else s2 ++ ['.', '0']

/-- The price string attached to an order. -/
def priceStr (q : ℚ) : String := String.mk (priceStrChars q)

/-- The order-request dict built by `_to_kalshi_order`; the price string
is attached under exactly one of the two side-specific fields. -/
structure KalshiOrderReq where
  ticker : String
  side : String
  action : String
  count : ℤ
  client_order_id : String
  time_in_force : String
  yes_price_dollars : Option String
  no_price_dollars : Option String
deriving DecidableEq, Repr

/-- Python `direction in ("BUY_YES", "SELL_YES")`. -/
def directionIsYes (d : Direction) : Bool :=
  match d with
  | .BUY_YES => true
  | .SELL_YES => true
  | _ => false

/-- Python `"BUY" in direction` over the four direction literals. -/
def directionIsBuy (d : Direction) : Bool :=
  match d with
  | .BUY_YES => true
  | .BUY_NO => true
  | _ => false

/-- basket_service.py `_to_kalshi_order`; `sfx` stands for the fresh
`uuid.uuid4().hex[:8]` suffix drawn during this call. -/
def toKalshiOrder (leg : BasketOrderPreviewLeg) (direction : Direction)
    (basket_id : String) (sfx : String) : Option KalshiOrderReq :=
  if leg.contracts ≤ 0 then none
  else
    let price_str := priceStr leg.price_dollars
    let is_yes := directionIsYes direction
    some
      { ticker := leg.market_ticker
        side := if is_yes then "yes" else "no"
        action := if directionIsBuy direction then "buy" else "sell"
        count := leg.contracts
        client_order_id := basket_id ++ ":" ++ leg.market_ticker ++ ":" ++ sfx
        time_in_force := "immediate_or_cancel"
        yes_price_dollars := if is_yes then some price_str else none
        no_price_dollars := if is_yes then none else some price_str }

/-- One entry of the exchange's batch response: the optional echoed order. -/
structure RespOrder where
  ticker : Option String
  order_id : Option String
  status : Option String
deriving DecidableEq, Repr

/-- The `error` value of a batch-response item as Python sees it: absent or
falsy (`none`), a dict with an optional `message` field, or any other
truthy value rendered by `str(err)`. -/
inductive ErrVal where
  | dict (message : Option String)
  | text (s : String)
deriving DecidableEq, Repr

/-- One item of `resp.get("orders", [])`; `order = none` also covers a
falsy (empty) order dict, which `if order:` treats the same as absent. -/
structure RespItem where
  order : Option RespOrder
  error : Option ErrVal
  client_order_id : Option String
deriving DecidableEq, Repr

/-- The exchange's batch response; an absent `orders` key is the empty list
(`resp.get("orders", [])`). -/
structure BatchResponse where
  orders : List RespItem
deriving DecidableEq, Repr

/-- One per-leg result dict built by `execute`. -/
structure ResultLeg where
  market_ticker : String
  client_order_id : Option String
  order_id : Option String
  status : Option String
  error : Option String
deriving DecidableEq, Repr

/-- The extracted error message: `err.get("message") if isinstance(err, dict)
else str(err) if err else None`. -/
def errMsg (e : Option ErrVal) : Option String :=
  match e with
  | none => none
  | some (.dict m) => m
  | some (.text s) => some s

/-- Python truthiness of a result's `error` value inside
`any(r.get("error") for r in results)`: a nonempty string. -/
def errTruthy (e : Option String) : Bool :=
  match e with
  | none => false
  | some s => !(s == "")

/-- The per-item result construction of `execute` (basket_service.py lines
206-224): resolve the ticker from the echoed order or, failing that, by
matching the client order id against the submitted batch. -/
def buildResult (sent : List KalshiOrderReq) (item : RespItem) : ResultLeg :=
  let ticker0 : Option String :=
    match item.order with
    | some o => o.ticker
    | none =>
        match item.client_order_id with
        | none => none
        | some cid =>
            if sent.isEmpty || cid == "" then none
            else (sent.find? (fun o => o.client_order_id == cid)).map (·.ticker)
  { market_ticker :=
      match ticker0 with
      | none => "?"
      | some s => if s == "" then "?" else s
    client_order_id := item.client_order_id
    order_id := item.order.bind (·.order_id)
    status := item.order.bind (·.status)
    error := errMsg item.error }

/-- All results of a structured batch response. -/
def buildResults (sent : List KalshiOrderReq) (resp : BatchResponse) : List ResultLeg :=
  resp.orders.map (buildResult sent)

/-- `success = not any(r.get("error") for r in results)`. -/
def execSuccess (results : List ResultLeg) : Bool :=
  !(results.any fun r => errTruthy r.error)

/-- The list comprehension of `execute` (lines 189-193): translate the
priced legs with positive contracts in order; each call draws the next
fresh uuid suffix from the stream. -/
def translateAll (basket_id : String) (sfx : ℕ → String) :
    ℕ → List BasketOrderPreviewLeg → List (Option KalshiOrderReq)
  | _, [] => []
  | i, l :: ls =>
      toKalshiOrder l l.direction basket_id (sfx i) :: translateAll basket_id sfx (i + 1) ls

/-- The `to_send` batch of `execute` after dropping `None` entries. -/
def toSend (theme : BasketTheme) (total_budget_dollars : ℚ)
    (overrides : String → Option LegOverride)
    (snapshots : String → Option MarketSnapshot) (sfx : ℕ → String) :
    List KalshiOrderReq :=
  let pre := preview theme total_budget_dollars overrides snapshots
  (translateAll theme.theme_id sfx 0 (pre.legs.filter (fun l => 0 < l.contracts))).filterMap id

/-- basket_service.py line 18: `BATCH_ORDER_LIMIT = 20`. -/
def BATCH_ORDER_LIMIT : ℕ := 20

/-- basket_service.py `execute`: re-price, translate, fail fast on an empty
or oversized batch, submit, and fold the response into per-leg results.
`batchCreate` models `kalshi.batch_create_orders`; `Except.error` models a
raised exception. -/
def execute (theme : BasketTheme) (total_budget_dollars : ℚ)
    (overrides : String → Option LegOverride)
    (snapshots : String → Option MarketSnapshot) (sfx : ℕ → String)
    (batchCreate : List KalshiOrderReq → Except String BatchResponse) :
    Bool × String × List ResultLeg :=
  let sent := toSend theme total_budget_dollars overrides snapshots sfx
  if sent.isEmpty then
    (false, "No orders to place (all legs have 0 contracts or errors).", [])
  else if BATCH_ORDER_LIMIT < sent.length then
    (false, "Too many legs (max 20).", [])
  else
    match batchCreate sent with
    | .error e => (false, e, [])
    | .ok resp =>
        let results := buildResults sent resp
        let success := execSuccess results
        (success,
         if success then "Batch submitted." else "Some orders failed; check per-leg results.",
         results)

/-! ### Concrete fixtures used by the witnesses -/

/-- A concrete enabled leg (weight 1) used by witnesses. -/
def legW : BasketLeg := ⟨"T1", "E1", "Leg one", .BUY_YES, 1, true⟩

/-- A concrete one-leg theme used by witnesses. -/
def themeW : BasketTheme := ⟨"bk1", "Theme one", "desc", [legW]⟩

/-- A concrete snapshot environment: market T1 is active with yes bid 0.45
and yes ask 0.50. -/
def snapW : String → Option MarketSnapshot := fun t =>
  if t = "T1" then some ⟨some "active", some (45/100), some (1/2), none, none⟩ else none

/-- A snapshot environment in which no market is found. -/
def snapNone : String → Option MarketSnapshot := fun _ => none

/-- The empty override set. -/
def noOverrides : String → Option LegOverride := fun _ => none

/-- A fixed uuid-suffix stream for witnesses. -/
def sfxW : ℕ → String := fun _ => "abcd1234"

/-- A concrete priced leg with one contract at price 0.50. -/
def legP : BasketOrderPreviewLeg := ⟨"T1", "Leg one", .BUY_YES, 1/2, 1, 1/2, []⟩

/-- The order request `_to_kalshi_order` builds from `legP`. -/
def oP : KalshiOrderReq :=
  ⟨"T1", "yes", "buy", 1, "bk1:T1:abcd1234", "immediate_or_cancel", some "0.5", none⟩

/-! ### Helper lemmas about the pricing pipeline -/

lemma normalize_fun_enabled (total : ℚ) (l : BasketLeg) :
    ((if l.enabled then { l with weight := l.weight / total } else l).enabled) = l.enabled := by
  by_cases h : l.enabled <;> simp [h]

lemma filter_enabled_normalizeWeights (legs : List BasketLeg) :
    (normalizeWeights legs).filter (·.enabled) =
      if enabledWeightSum legs ≤ 0 then legs.filter (·.enabled)
      else (legs.filter (·.enabled)).map
        (fun l => { l with weight := l.weight / enabledWeightSum legs }) := by
  unfold normalizeWeights
  by_cases h : enabledWeightSum legs ≤ 0
  · simp [h]
  · simp only [h, if_false]
    rw [List.filter_map]
    have hpred : ((fun l : BasketLeg => l.enabled) ∘
        (fun l : BasketLeg => if l.enabled then { l with weight := l.weight / enabledWeightSum legs } else l)) =
        (fun l : BasketLeg => l.enabled) := by
      funext l
      exact normalize_fun_enabled _ l
    rw [hpred]
    apply List.map_congr_left
    intro a ha
    have : a.enabled := by
      simpa using (List.mem_filter.mp ha).2
    simp [this]

lemma length_filter_enabled_normalizeWeights (legs : List BasketLeg) :
    ((normalizeWeights legs).filter (·.enabled)).length = (legs.filter (·.enabled)).length := by
  rw [filter_enabled_normalizeWeights]
  by_cases h : enabledWeightSum legs ≤ 0 <;> simp [h]

lemma sum_map_div (xs : List ℚ) (c : ℚ) : (xs.map (· / c)).sum = xs.sum / c := by
  induction xs with
  | nil => simp
  | cons x t ih => simp [ih, add_div]

lemma round4_zero : round4 0 = 0 := by with_unfolding_all decide

lemma preview_of_no_enabled (theme : BasketTheme) (B : ℚ)
    (ov : String → Option LegOverride) (snaps : String → Option MarketSnapshot)
    (h : (applyOverrides theme.legs ov).filter (·.enabled) = []) :
    preview theme B ov snaps =
      { total_budget_dollars := B
        legs := []
        est_total_cost_dollars := 0
        warnings := ["No legs enabled."] } := by
  unfold preview
  simp [h]

lemma preview_legs_of_enabled (theme : BasketTheme) (B : ℚ)
    (ov : String → Option LegOverride) (snaps : String → Option MarketSnapshot)
    (h : (applyOverrides theme.legs ov).filter (·.enabled) ≠ []) :
    (preview theme B ov snaps).legs = (enabledNormalized theme ov).map (priceLeg B snaps) ∧
    (preview theme B ov snaps).est_total_cost_dollars =
      round4 ((((enabledNormalized theme ov).map (priceLeg B snaps)).map
        (·.est_cost_dollars)).sum) := by
  unfold preview
  have h2 : ((applyOverrides theme.legs ov).filter (·.enabled)).isEmpty = false := by
    simpa [List.isEmpty_iff] using h
  simp [h2]

lemma enabledNormalized_ne_nil_of_mem (theme : BasketTheme)
    (ov : String → Option LegOverride) (leg : BasketLeg)
    (hmem : leg ∈ enabledNormalized theme ov) :
    (applyOverrides theme.legs ov).filter (·.enabled) ≠ [] := by
  intro hnil
  have h0 : ((applyOverrides theme.legs ov).filter (·.enabled)).length = 0 := by
    simp [hnil]
  have h1 : (enabledNormalized theme ov).length = 0 := by
    unfold enabledNormalized
    rw [length_filter_enabled_normalizeWeights]
    exact h0
  rcases List.length_eq_zero.mp h1 with h2
  rw [h2] at hmem
  exact List.not_mem_nil _ hmem

lemma priceLeg_of_no_snapshot (B : ℚ) (snaps : String → Option MarketSnapshot)
    (leg : BasketLeg) (h : snaps leg.market_ticker = none) :
    priceLeg B snaps leg =
      { market_ticker := leg.market_ticker
        title := leg.title
        direction := leg.direction
        price_dollars := 0
        contracts := 0
        est_cost_dollars := 0
        warnings := ["Market not found."] } := by
  unfold priceLeg
  rw [h]

lemma priceLeg_of_none_price (B : ℚ) (snaps : String → Option MarketSnapshot)
    (leg : BasketLeg) (m : MarketSnapshot) (hm : snaps leg.market_ticker = some m)
    (hp : pickPriceDollars m leg.direction = none) :
    priceLeg B snaps leg =
      { market_ticker := leg.market_ticker
        title := leg.title
        direction := leg.direction
        price_dollars := 0
        contracts := 0
        est_cost_dollars := 0
        warnings :=
          (if isTradable m then []
           else ["Market not tradable (status=" ++ statusText m ++ ")."]) ++
          ["Missing or invalid bid/ask."] } := by
  simp only [priceLeg, hm, hp]

lemma priceLeg_of_nonpos_price (B : ℚ) (snaps : String → Option MarketSnapshot)
    (leg : BasketLeg) (m : MarketSnapshot) (p : ℚ)
    (hm : snaps leg.market_ticker = some m)
    (hp : pickPriceDollars m leg.direction = some p) (hp0 : p ≤ 0) :
    priceLeg B snaps leg =
      { market_ticker := leg.market_ticker
        title := leg.title
        direction := leg.direction
        price_dollars := 0
        contracts := 0
        est_cost_dollars := 0
        warnings :=
          (if isTradable m then []
           else ["Market not tradable (status=" ++ statusText m ++ ")."]) ++
          ["Missing or invalid bid/ask."] } := by
  simp only [priceLeg, hm, hp]
  simp [hp0]

lemma priceLeg_of_pos_price (B : ℚ) (snaps : String → Option MarketSnapshot)
    (leg : BasketLeg) (m : MarketSnapshot) (p : ℚ)
    (hm : snaps leg.market_ticker = some m)
    (hp : pickPriceDollars m leg.direction = some p) (hp0 : 0 < p) :
    priceLeg B snaps leg =
      { market_ticker := leg.market_ticker
        title := leg.title
        direction := leg.direction
        price_dollars := p
        contracts := max 0 ⌊B * leg.weight / p⌋
        est_cost_dollars :=
          round4 (if 1 ≤ ⌊B * leg.weight / p⌋ then (⌊B * leg.weight / p⌋ : ℚ) * p else 0)
        warnings :=
          (if isTradable m then []
           else ["Market not tradable (status=" ++ statusText m ++ ")."]) ++
          (if ⌊B * leg.weight / p⌋ < 1 then ["Budget too small for at least 1 contract."]
           else []) } := by
  have hnp : ¬ p ≤ 0 := not_le.mpr hp0
  simp only [priceLeg, hm, hp, hnp, if_false]
  by_cases hc : ⌊B * leg.weight / p⌋ < 1 <;> simp [hc]

/-! ### C2: weight renormalization -/

/-- C2: for every leg list, if the sum S of enabled legs' weights is positive
then after `_normalize_weights` the enabled weights sum to exactly 1 and
disabled legs are untouched; if S ≤ 0 all weights are left unchanged. -/
theorem C2_normalize_weights (legs : List BasketLeg) :
    (0 < enabledWeightSum legs →
      enabledWeightSum (normalizeWeights legs) = 1 ∧
      ∀ (i : ℕ) (l : BasketLeg), legs[i]? = some l → l.enabled = false →
        (normalizeWeights legs)[i]? = some l) ∧
    (enabledWeightSum legs ≤ 0 → normalizeWeights legs = legs) := by
  constructor
  · intro hS
    have hS' : ¬ enabledWeightSum legs ≤ 0 := not_le.mpr hS
    constructor
    · unfold enabledWeightSum
      rw [filter_enabled_normalizeWeights]
      simp only [hS', if_false]
      rw [List.map_map]
      have : ((fun l : BasketLeg => l.weight) ∘
          (fun l : BasketLeg => { l with weight := l.weight / enabledWeightSum legs })) =
          (fun l : BasketLeg => l.weight / enabledWeightSum legs) := rfl
      rw [this]
      have hmapdiv : (List.map (fun l : BasketLeg => l.weight / enabledWeightSum legs)
          (legs.filter (·.enabled))) =
          ((legs.filter (·.enabled)).map (·.weight)).map (· / enabledWeightSum legs) := by
        rw [List.map_map]
        rfl
      rw [hmapdiv, sum_map_div]
      exact div_self (ne_of_gt hS)
    · intro i l hi hl
      unfold normalizeWeights
      simp only [hS', if_false]
      rw [List.getElem?_map, hi]
      simp [hl]
  · intro hS
    unfold normalizeWeights
    simp [hS]

/-- Witness for C2 at a concrete leg list with enabled weights summing to 3/4. -/
theorem C2_normalize_weights_witness :
    0 < enabledWeightSum
      [⟨"A", "E", "a", .BUY_YES, 1/2, true⟩, ⟨"B", "E", "b", .BUY_YES, 1/4, true⟩] ∧
    enabledWeightSum (normalizeWeights
      [⟨"A", "E", "a", .BUY_YES, 1/2, true⟩, ⟨"B", "E", "b", .BUY_YES, 1/4, true⟩]) = 1 :=
  ⟨by with_unfolding_all decide,
   ((C2_normalize_weights _).1 (by with_unfolding_all decide)).1⟩

/-! ### C1: per-leg budget allocation and floor sizing -/

/-- C1: in preview, for every enabled leg with a found snapshot and a
positive unit price, `contracts = floor(total_budget * normalized_weight / price)`
(never rounded up), so `contracts * price` never exceeds the leg's budget
allocation; if `contracts < 1` the leg gets the budget warning and cost 0,
otherwise `est_cost = round4(contracts * price)`. -/
theorem C1_budget_allocation (theme : BasketTheme) (B : ℚ)
    (ov : String → Option LegOverride) (snaps : String → Option MarketSnapshot)
    (hB : 0 ≤ B) :
    ∀ leg ∈ enabledNormalized theme ov, 0 ≤ leg.weight →
    ∀ m, snaps leg.market_ticker = some m →
    ∀ p, pickPriceDollars m leg.direction = some p → 0 < p →
      priceLeg B snaps leg ∈ (preview theme B ov snaps).legs ∧
      (priceLeg B snaps leg).contracts = ⌊B * leg.weight / p⌋ ∧
      ((priceLeg B snaps leg).contracts : ℚ) * p ≤ B * leg.weight ∧
      (⌊B * leg.weight / p⌋ < 1 →
        "Budget too small for at least 1 contract." ∈ (priceLeg B snaps leg).warnings ∧
        (priceLeg B snaps leg).est_cost_dollars = 0) ∧
      (1 ≤ ⌊B * leg.weight / p⌋ →
        (priceLeg B snaps leg).est_cost_dollars =
          round4 ((⌊B * leg.weight / p⌋ : ℚ) * p)) := by
  intro leg hmem hw m hm p hp hp0
  have hne := enabledNormalized_ne_nil_of_mem theme ov leg hmem
  have hlegs := (preview_legs_of_enabled theme B ov snaps hne).1
  have hrec := priceLeg_of_pos_price B snaps leg m p hm hp hp0
  have hbw : (0 : ℚ) ≤ B * leg.weight := mul_nonneg hB hw
  have hfl : (0 : ℤ) ≤ ⌊B * leg.weight / p⌋ := by
    rw [Int.le_floor]
    simpa using div_nonneg hbw (le_of_lt hp0)
  have hmax : max 0 ⌊B * leg.weight / p⌋ = ⌊B * leg.weight / p⌋ := max_eq_right hfl
  refine ⟨?_, ?_, ?_, ?_, ?_⟩
  · rw [hlegs]
    exact List.mem_map_of_mem _ hmem
  · simp [hrec, hmax]
  · have h1 : (⌊B * leg.weight / p⌋ : ℚ) ≤ B * leg.weight / p := Int.floor_le _
    have h2 := mul_le_mul_of_nonneg_right h1 (le_of_lt hp0)
    rw [div_mul_cancel₀ _ (ne_of_gt hp0)] at h2
    simpa [hrec, hmax] using h2
  · intro hc
    constructor
    · simp [hrec, hc]
    · have : ¬ (1 : ℤ) ≤ ⌊B * leg.weight / p⌋ := not_le.mpr hc
      simp [hrec, this, round4_zero]
  · intro hc
    have : ¬ ⌊B * leg.weight / p⌋ < 1 := not_lt.mpr hc
    simp [hrec, hc, this]

/-- Witness for C1: one enabled leg of weight 1, budget 50, price 0.50:
contracts = 100 and cost 50 never exceed the allocation. -/
theorem C1_budget_allocation_witness :
    priceLeg 50 snapW legW ∈ (preview themeW 50 noOverrides snapW).legs ∧
    (priceLeg 50 snapW legW).contracts = ⌊(50 : ℚ) * legW.weight / (1/2)⌋ ∧
    ((priceLeg 50 snapW legW).contracts : ℚ) * (1/2) ≤ 50 * legW.weight ∧
    (⌊(50 : ℚ) * legW.weight / (1/2)⌋ < 1 →
      "Budget too small for at least 1 contract." ∈ (priceLeg 50 snapW legW).warnings ∧
      (priceLeg 50 snapW legW).est_cost_dollars = 0) ∧
    (1 ≤ ⌊(50 : ℚ) * legW.weight / (1/2)⌋ →
      (priceLeg 50 snapW legW).est_cost_dollars =
        round4 ((⌊(50 : ℚ) * legW.weight / (1/2)⌋ : ℚ) * (1/2))) :=
  C1_budget_allocation themeW 50 noOverrides snapW (by norm_num) legW
    (by with_unfolding_all decide) (by with_unfolding_all decide)
    ⟨some "active", some (45/100), some (1/2), none, none⟩ (by with_unfolding_all decide)
    (1/2) (by with_unfolding_all decide) (by norm_num)

/-! ### C3: per-leg error recovery -/

/-- C3: per-leg error recovery in preview: a missing snapshot yields a
priced leg with contracts 0, price 0 and the market-not-found warning; a
missing or non-positive price yields contracts 0, cost 0 and the
invalid-bid/ask warning; and the preview always has exactly one entry per
enabled leg (the run never aborts). -/
theorem C3_per_leg_recovery (theme : BasketTheme) (B : ℚ)
    (ov : String → Option LegOverride) (snaps : String → Option MarketSnapshot) :
    ((preview theme B ov snaps).legs.length =
      ((applyOverrides theme.legs ov).filter (·.enabled)).length) ∧
    (∀ leg ∈ enabledNormalized theme ov,
      snaps leg.market_ticker = none →
        priceLeg B snaps leg ∈ (preview theme B ov snaps).legs ∧
        priceLeg B snaps leg =
          { market_ticker := leg.market_ticker
            title := leg.title
            direction := leg.direction
            price_dollars := 0
            contracts := 0
            est_cost_dollars := 0
            warnings := ["Market not found."] }) ∧
    (∀ leg ∈ enabledNormalized theme ov, ∀ m, snaps leg.market_ticker = some m →
      (pickPriceDollars m leg.direction = none ∨
       ∃ p, pickPriceDollars m leg.direction = some p ∧ p ≤ 0) →
        priceLeg B snaps leg ∈ (preview theme B ov snaps).legs ∧
        (priceLeg B snaps leg).contracts = 0 ∧
        (priceLeg B snaps leg).est_cost_dollars = 0 ∧
        "Missing or invalid bid/ask." ∈ (priceLeg B snaps leg).warnings) := by
  refine ⟨?_, ?_, ?_⟩
  · by_cases h : (applyOverrides theme.legs ov).filter (·.enabled) = []
    · rw [preview_of_no_enabled theme B ov snaps h, h]
      rfl
    · rw [(preview_legs_of_enabled theme B ov snaps h).1, List.length_map]
      exact length_filter_enabled_normalizeWeights _
  · intro leg hmem hnone
    have hne := enabledNormalized_ne_nil_of_mem theme ov leg hmem
    refine ⟨?_, priceLeg_of_no_snapshot B snaps leg hnone⟩
    rw [(preview_legs_of_enabled theme B ov snaps hne).1]
    exact List.mem_map_of_mem _ hmem
  · intro leg hmem m hm hbad
    have hne := enabledNormalized_ne_nil_of_mem theme ov leg hmem
    have hmem2 : priceLeg B snaps leg ∈ (preview theme B ov snaps).legs := by
      rw [(preview_legs_of_enabled theme B ov snaps hne).1]
      exact List.mem_map_of_mem _ hmem
    rcases hbad with hnone | ⟨p, hp, hp0⟩
    · refine ⟨hmem2, ?_, ?_, ?_⟩
      all_goals rw [priceLeg_of_none_price B snaps leg m hm hnone]
      all_goals simp
    · refine ⟨hmem2, ?_, ?_, ?_⟩
      all_goals rw [priceLeg_of_nonpos_price B snaps leg m p hm hp hp0]
      all_goals simp

/-- Witness for C3: one enabled leg whose market is not found. -/
theorem C3_per_leg_recovery_witness :
    priceLeg 50 snapNone legW ∈ (preview themeW 50 noOverrides snapNone).legs ∧
    priceLeg 50 snapNone legW =
      { market_ticker := legW.market_ticker
        title := legW.title
        direction := legW.direction
        price_dollars := 0
        contracts := 0
        est_cost_dollars := 0
        warnings := ["Market not found."] } :=
  (C3_per_leg_recovery themeW 50 noOverrides snapNone).2.1 legW
    (by with_unfolding_all decide) rfl

/-! ### C4: warning accumulation and degraded previews -/

/-- The estimated cost of a failed leg (missing snapshot, or missing or
non-positive price) is zero. -/
lemma priceLeg_failed_cost (B : ℚ) (snaps : String → Option MarketSnapshot)
    (leg : BasketLeg)
    (h : snaps leg.market_ticker = none ∨
      ∃ m, snaps leg.market_ticker = some m ∧
        (pickPriceDollars m leg.direction = none ∨
         ∃ p, pickPriceDollars m leg.direction = some p ∧ p ≤ 0)) :
    (priceLeg B snaps leg).est_cost_dollars = 0 := by
  rcases h with hnone | ⟨m, hm, hnonep | ⟨p, hp, hp0⟩⟩
  · rw [priceLeg_of_no_snapshot B snaps leg hnone]
  · rw [priceLeg_of_none_price B snaps leg m hm hnonep]
  · rw [priceLeg_of_nonpos_price B snaps leg m p hm hp hp0]

/-- C4: every warning collected during a preview run is present in the
returned preview; a basket with all legs failing still returns a
well-formed zero-cost preview; the no-legs-enabled case is reported as a
preview carrying the single warning `"No legs enabled."`, not an
exception. -/
theorem C4_warnings_accumulated (theme : BasketTheme) (B : ℚ)
    (ov : String → Option LegOverride) (snaps : String → Option MarketSnapshot) :
    ((applyOverrides theme.legs ov).filter (·.enabled) = [] →
      preview theme B ov snaps =
        { total_budget_dollars := B
          legs := []
          est_total_cost_dollars := 0
          warnings := ["No legs enabled."] }) ∧
    (∀ leg ∈ enabledNormalized theme ov,
      priceLeg B snaps leg ∈ (preview theme B ov snaps).legs ∧
      ∀ w ∈ (priceLeg B snaps leg).warnings,
        ∃ pl ∈ (preview theme B ov snaps).legs, w ∈ pl.warnings) ∧
    ((∀ leg ∈ enabledNormalized theme ov,
        snaps leg.market_ticker = none ∨
        ∃ m, snaps leg.market_ticker = some m ∧
          (pickPriceDollars m leg.direction = none ∨
           ∃ p, pickPriceDollars m leg.direction = some p ∧ p ≤ 0)) →
      (preview theme B ov snaps).est_total_cost_dollars = 0 ∧
      ∀ pl ∈ (preview theme B ov snaps).legs, pl.est_cost_dollars = 0) := by
  refine ⟨preview_of_no_enabled theme B ov snaps, ?_, ?_⟩
  · intro leg hmem
    have hne := enabledNormalized_ne_nil_of_mem theme ov leg hmem
    have hmem2 : priceLeg B snaps leg ∈ (preview theme B ov snaps).legs := by
      rw [(preview_legs_of_enabled theme B ov snaps hne).1]
      exact List.mem_map_of_mem _ hmem
    exact ⟨hmem2, fun w hw => ⟨priceLeg B snaps leg, hmem2, hw⟩⟩
  · intro hfail
    by_cases h : (applyOverrides theme.legs ov).filter (·.enabled) = []
    · rw [preview_of_no_enabled theme B ov snaps h]
      exact ⟨rfl, by simp⟩
    · obtain ⟨h1, h2⟩ := preview_legs_of_enabled theme B ov snaps h
      have hzero : ∀ pl ∈ (preview theme B ov snaps).legs, pl.est_cost_dollars = 0 := by
        rw [h1]
        intro pl hpl
        rcases List.mem_map.mp hpl with ⟨leg, hleg, hplrec⟩
        rw [← hplrec]
        exact priceLeg_failed_cost B snaps leg (hfail leg hleg)
      refine ⟨?_, hzero⟩
      rw [h2]
      have : ((((enabledNormalized theme ov).map (priceLeg B snaps)).map
          (·.est_cost_dollars)).sum) = 0 := by
        apply List.sum_eq_zero
        intro x hx
        rcases List.mem_map.mp hx with ⟨pl, hpl, hxeq⟩
        rw [← hxeq]
        apply hzero
        rw [h1]
        exact hpl
      rw [this]
      exact round4_zero

/-- Witness for C4: the empty-enabled case returns the warning-carrying
preview (all legs of the theme are disabled by an override). -/
theorem C4_warnings_accumulated_witness :
    (applyOverrides themeW.legs (fun _ => some ⟨some false, none, none⟩)).filter
      (·.enabled) = [] ∧
    preview themeW 50 (fun _ => some ⟨some false, none, none⟩) snapW =
      { total_budget_dollars := 50
        legs := []
        est_total_cost_dollars := 0
        warnings := ["No legs enabled."] } :=
  ⟨by with_unfolding_all decide,
   (C4_warnings_accumulated themeW 50 (fun _ => some ⟨some false, none, none⟩) snapW).1
     (by with_unfolding_all decide)⟩

/-! ### C7: the aggregate cost invariant -/

/-- C7: for every preview result, `est_total_cost_dollars` equals the sum of
the per-leg `est_cost_dollars` values rounded to 4 decimal places. -/
theorem C7_est_total_cost (theme : BasketTheme) (B : ℚ)
    (ov : String → Option LegOverride) (snaps : String → Option MarketSnapshot) :
    (preview theme B ov snaps).est_total_cost_dollars =
      round4 (((preview theme B ov snaps).legs.map (·.est_cost_dollars)).sum) := by
  by_cases h : (applyOverrides theme.legs ov).filter (·.enabled) = []
  · rw [preview_of_no_enabled theme B ov snaps h]
    simpa using round4_zero.symm
  · obtain ⟨h1, h2⟩ := preview_legs_of_enabled theme B ov snaps h
    rw [h1, h2]

/-! ### Helper lemmas about execute -/

lemma errTruthy_iff (e : Option String) :
    errTruthy e = true ↔ ∃ s, e = some s ∧ s ≠ "" := by
  cases e with
  | none => simp [errTruthy]
  | some s => simp [errTruthy]

lemma execSuccess_iff (results : List ResultLeg) :
    execSuccess results = true ↔
      ∀ r ∈ results, ¬ ∃ s, r.error = some s ∧ s ≠ "" := by
  unfold execSuccess
  rw [Bool.not_eq_true']
  rw [List.any_eq_false]
  constructor
  · intro h r hr
    rw [← errTruthy_iff]
    simp [h r hr]
  · intro h r hr
    intro hc
    exact h r hr ((errTruthy_iff _).mp hc)

lemma execute_of_empty (theme : BasketTheme) (B : ℚ)
    (ov : String → Option LegOverride) (snaps : String → Option MarketSnapshot)
    (sfx : ℕ → String) (bc : List KalshiOrderReq → Except String BatchResponse)
    (h : toSend theme B ov snaps sfx = []) :
    execute theme B ov snaps sfx bc =
      (false, "No orders to place (all legs have 0 contracts or errors).", []) := by
  unfold execute
  simp [h]

lemma execute_of_too_many (theme : BasketTheme) (B : ℚ)
    (ov : String → Option LegOverride) (snaps : String → Option MarketSnapshot)
    (sfx : ℕ → String) (bc : List KalshiOrderReq → Except String BatchResponse)
    (h1 : toSend theme B ov snaps sfx ≠ [])
    (h2 : BATCH_ORDER_LIMIT < (toSend theme B ov snaps sfx).length) :
    execute theme B ov snaps sfx bc = (false, "Too many legs (max 20).", []) := by
  unfold execute
  have he : (toSend theme B ov snaps sfx).isEmpty = false := by
    simpa [List.isEmpty_iff] using h1
  simp [he, h2]

lemma execute_of_submit (theme : BasketTheme) (B : ℚ)
    (ov : String → Option LegOverride) (snaps : String → Option MarketSnapshot)
    (sfx : ℕ → String) (bc : List KalshiOrderReq → Except String BatchResponse)
    (h1 : toSend theme B ov snaps sfx ≠ [])
    (h2 : (toSend theme B ov snaps sfx).length ≤ BATCH_ORDER_LIMIT) :
    execute theme B ov snaps sfx bc =
      match bc (toSend theme B ov snaps sfx) with
      | .error e => (false, e, [])
      | .ok resp =>
          (execSuccess (buildResults (toSend theme B ov snaps sfx) resp),
           if execSuccess (buildResults (toSend theme B ov snaps sfx) resp)
           then "Batch submitted."
           else "Some orders failed; check per-leg results.",
           buildResults (toSend theme B ov snaps sfx) resp) := by
  unfold execute
  have he : (toSend theme B ov snaps sfx).isEmpty = false := by
    simpa [List.isEmpty_iff] using h1
  have hlt : ¬ BATCH_ORDER_LIMIT < (toSend theme B ov snaps sfx).length := not_lt.mpr h2
  simp [he, hlt]

lemma translateAll_mem (bid : String) (sfx : ℕ → String) :
    ∀ (ls : List BasketOrderPreviewLeg) (i : ℕ) (x : Option KalshiOrderReq),
      x ∈ translateAll bid sfx i ls →
      ∃ a ∈ ls, ∃ n, x = toKalshiOrder a a.direction bid (sfx n) := by
  intro ls
  induction ls with
  | nil =>
      intro i x hx
      simp [translateAll] at hx
  | cons l t ih =>
      intro i x hx
      rw [translateAll] at hx
      rcases List.mem_cons.mp hx with h | h
      · exact ⟨l, List.mem_cons_self _ _, i, h⟩
      · rcases ih (i + 1) x h with ⟨a, ha, n, hn⟩
        exact ⟨a, List.mem_cons_of_mem _ ha, n, hn⟩

/-! ### C9: the order translator -/

/-- C9: `_to_kalshi_order` returns none exactly when contracts ≤ 0;
otherwise YES-directions map to side yes, NO-directions to side no,
BUY-directions to action buy, SELL-directions to action sell, and the
formatted price is attached only under the field matching the chosen
side, never both. -/
theorem C9_order_translator (leg : BasketOrderPreviewLeg) (d : Direction)
    (bid sfx : String) :
    (toKalshiOrder leg d bid sfx = none ↔ leg.contracts ≤ 0) ∧
    (∀ o, toKalshiOrder leg d bid sfx = some o →
      ((d = .BUY_YES ∨ d = .SELL_YES) →
        o.side = "yes" ∧ o.yes_price_dollars = some (priceStr leg.price_dollars) ∧
        o.no_price_dollars = none) ∧
      ((d = .BUY_NO ∨ d = .SELL_NO) →
        o.side = "no" ∧ o.no_price_dollars = some (priceStr leg.price_dollars) ∧
        o.yes_price_dollars = none) ∧
      ((d = .BUY_YES ∨ d = .BUY_NO) → o.action = "buy") ∧
      ((d = .SELL_YES ∨ d = .SELL_NO) → o.action = "sell") ∧
      ¬ (o.yes_price_dollars ≠ none ∧ o.no_price_dollars ≠ none)) := by
  by_cases h : leg.contracts ≤ 0
  · constructor
    · simp [toKalshiOrder, h]
    · intro o ho
      simp [toKalshiOrder, h] at ho
  · constructor
    · simp [toKalshiOrder, h]
    · intro o ho
      simp only [toKalshiOrder, h, if_false, Option.some.injEq] at ho
      subst ho
      cases d <;> simp [directionIsYes, directionIsBuy]

/-- Witness for C9: a priced leg with one contract at price 0.50 under
direction BUY_YES translates to a yes/buy order carrying only the yes
price `"0.5"`. -/
theorem C9_order_translator_witness :
    ((Direction.BUY_YES = .BUY_YES ∨ Direction.BUY_YES = .SELL_YES) →
      oP.side = "yes" ∧ oP.yes_price_dollars = some (priceStr legP.price_dollars) ∧
      oP.no_price_dollars = none) ∧
    ((Direction.BUY_YES = .BUY_NO ∨ Direction.BUY_YES = .SELL_NO) →
      oP.side = "no" ∧ oP.no_price_dollars = some (priceStr legP.price_dollars) ∧
      oP.yes_price_dollars = none) ∧
    ((Direction.BUY_YES = .BUY_YES ∨ Direction.BUY_YES = .BUY_NO) → oP.action = "buy") ∧
    ((Direction.BUY_YES = .SELL_YES ∨ Direction.BUY_YES = .SELL_NO) → oP.action = "sell") ∧
    ¬ (oP.yes_price_dollars ≠ none ∧ oP.no_price_dollars ≠ none) :=
  (C9_order_translator legP .BUY_YES "bk1" "abcd1234").2 oP
    (by with_unfolding_all decide)

/-! ### C5: transport failure and overall success -/

/-- C5: if the batch submission raises, execute returns success false, the
exception text as the message and an empty results list; on a structured
response the success flag is true iff no per-leg result carries an error,
and the message is one of two fixed strings chosen by success. -/
theorem C5_execute_outcome (theme : BasketTheme) (B : ℚ)
    (ov : String → Option LegOverride) (snaps : String → Option MarketSnapshot)
    (sfx : ℕ → String) (bc : List KalshiOrderReq → Except String BatchResponse)
    (h1 : toSend theme B ov snaps sfx ≠ [])
    (h2 : (toSend theme B ov snaps sfx).length ≤ BATCH_ORDER_LIMIT) :
    (∀ e, bc (toSend theme B ov snaps sfx) = .error e →
      execute theme B ov snaps sfx bc = (false, e, [])) ∧
    (∀ resp, bc (toSend theme B ov snaps sfx) = .ok resp →
      execute theme B ov snaps sfx bc =
        (execSuccess (buildResults (toSend theme B ov snaps sfx) resp),
         if execSuccess (buildResults (toSend theme B ov snaps sfx) resp)
         then "Batch submitted."
         else "Some orders failed; check per-leg results.",
         buildResults (toSend theme B ov snaps sfx) resp) ∧
      (execSuccess (buildResults (toSend theme B ov snaps sfx) resp) = true ↔
        ∀ r ∈ buildResults (toSend theme B ov snaps sfx) resp,
          ¬ ∃ s, r.error = some s ∧ s ≠ "")) := by
  have hsub := execute_of_submit theme B ov snaps sfx bc h1 h2
  constructor
  · intro e he
    rw [hsub, he]
  · intro resp hresp
    rw [hsub, hresp]
    exact ⟨rfl, execSuccess_iff _⟩

/-- Witness for C5: the concrete one-leg basket submitted against an
exchange that raises "connection reset" aborts with that text and no
results. -/
theorem C5_execute_outcome_witness :
    execute themeW 50 noOverrides snapW sfxW (fun _ => .error "connection reset") =
      (false, "connection reset", []) :=
  (C5_execute_outcome themeW 50 noOverrides snapW sfxW
      (fun _ => .error "connection reset")
      (by with_unfolding_all decide) (by with_unfolding_all decide)).1
    "connection reset" rfl

/-! ### C6: translation filter and batch-size guard -/

/-- C6: only priced legs with positive contracts are translated into
orders; execute fails fast, without invoking the exchange, when there are
zero translatable orders or more than 20 of them, so no batch of more
than 20 orders is ever submitted. -/
theorem C6_batch_guard (theme : BasketTheme) (B : ℚ)
    (ov : String → Option LegOverride) (snaps : String → Option MarketSnapshot)
    (sfx : ℕ → String) :
    (∀ o ∈ toSend theme B ov snaps sfx,
      ∃ leg ∈ (preview theme B ov snaps).legs, 0 < leg.contracts ∧
        ∃ n, toKalshiOrder leg leg.direction theme.theme_id (sfx n) = some o) ∧
    (toSend theme B ov snaps sfx = [] →
      ∀ bc, execute theme B ov snaps sfx bc =
        (false, "No orders to place (all legs have 0 contracts or errors).", [])) ∧
    (BATCH_ORDER_LIMIT < (toSend theme B ov snaps sfx).length →
      ∀ bc, execute theme B ov snaps sfx bc = (false, "Too many legs (max 20).", [])) := by
  refine ⟨?_, ?_, ?_⟩
  · intro o ho
    unfold toSend at ho
    rcases List.mem_filterMap.mp ho with ⟨x, hx, hid⟩
    rcases translateAll_mem theme.theme_id sfx _ 0 x hx with ⟨a, ha, n, hn⟩
    rcases List.mem_filter.mp ha with ⟨hmem, hpos⟩
    refine ⟨a, hmem, by simpa using hpos, n, ?_⟩
    rw [← hn]
    exact hid
  · intro h bc
    exact execute_of_empty theme B ov snaps sfx bc h
  · intro h bc
    have h1 : toSend theme B ov snaps sfx ≠ [] := by
      intro hnil
      rw [hnil] at h
      simp [BATCH_ORDER_LIMIT] at h
    exact execute_of_too_many theme B ov snaps sfx bc h1 h

/-- Witness for C6: with no snapshots every leg prices to zero contracts,
the batch is empty, and execute fails fast with the no-orders message. -/
theorem C6_batch_guard_witness :
    toSend themeW 50 noOverrides snapNone sfxW = [] ∧
    execute themeW 50 noOverrides snapNone sfxW (fun _ => .ok ⟨[]⟩) =
      (false, "No orders to place (all legs have 0 contracts or errors).", []) :=
  ⟨by with_unfolding_all decide,
   (C6_batch_guard themeW 50 noOverrides snapNone sfxW).2.1
     (by with_unfolding_all decide) (fun _ => .ok ⟨[]⟩)⟩

/-! ### C10: the empty batch response -/

/-- C10: when the exchange's batch response has an empty (or absent)
orders list, execute reports success with the message "Batch submitted."
and an empty results list even though no order was individually
confirmed. -/
theorem C10_empty_response (theme : BasketTheme) (B : ℚ)
    (ov : String → Option LegOverride) (snaps : String → Option MarketSnapshot)
    (sfx : ℕ → String) (bc : List KalshiOrderReq → Except String BatchResponse)
    (h1 : toSend theme B ov snaps sfx ≠ [])
    (h2 : (toSend theme B ov snaps sfx).length ≤ BATCH_ORDER_LIMIT)
    (h3 : bc (toSend theme B ov snaps sfx) = .ok ⟨[]⟩) :
    execute theme B ov snaps sfx bc = (true, "Batch submitted.", []) := by
  rw [execute_of_submit theme B ov snaps sfx bc h1 h2, h3]
  rfl

/-- Witness for C10: the concrete one-leg basket against an exchange
returning an empty orders list. -/
theorem C10_empty_response_witness :
    execute themeW 50 noOverrides snapW sfxW (fun _ => .ok ⟨[]⟩) =
      (true, "Batch submitted.", []) :=
  C10_empty_response themeW 50 noOverrides snapW sfxW (fun _ => .ok ⟨[]⟩)
    (by with_unfolding_all decide) (by with_unfolding_all decide) rfl

/-! ### Helper lemmas about the price string formatter -/

lemma digitsAux_succ (k n : ℕ) :
    digitsAux (k + 1) n =
      if n < 10 then [Nat.digitChar n]
      else digitsAux k (n / 10) ++ [Nat.digitChar (n % 10)] := rfl

lemma digitChar_ne_dot (m : ℕ) (hm : m < 10) : Nat.digitChar m ≠ '.' := by
  interval_cases m <;> decide

lemma digitsAux_chars (fuel : ℕ) :
    ∀ (n : ℕ) (c : Char), c ∈ digitsAux fuel n → ∃ m, m < 10 ∧ c = Nat.digitChar m := by
  induction fuel with
  | zero =>
      intro n c hc
      simp [digitsAux] at hc
  | succ fuel ih =>
      intro n c hc
      rw [digitsAux_succ] at hc
      by_cases h10 : n < 10
      · rw [if_pos h10] at hc
        rcases List.mem_singleton.mp hc with rfl
        exact ⟨n, h10, rfl⟩
      · rw [if_neg h10] at hc
        rcases List.mem_append.mp hc with h | h
        · exact ih (n / 10) c h
        · rcases List.mem_singleton.mp h with rfl
          exact ⟨n % 10, Nat.mod_lt _ (by norm_num), rfl⟩

lemma digitsOf_chars (n : ℕ) (c : Char) (hc : c ∈ digitsOf n) :
    ∃ m, m < 10 ∧ c = Nat.digitChar m :=
  digitsAux_chars (n + 1) n c hc

lemma digitsOf_ne_nil (n : ℕ) : digitsOf n ≠ [] := by
  unfold digitsOf
  rw [digitsAux_succ]
  by_cases h10 : n < 10
  · simp [h10]
  · simp [h10]

lemma digitsAux_length_le (fuel : ℕ) :
    ∀ (n k : ℕ), 1 ≤ k → n < 10 ^ k → (digitsAux fuel n).length ≤ k := by
  induction fuel with
  | zero =>
      intro n k hk _
      simp [digitsAux]
  | succ fuel ih =>
      intro n k hk hn
      rw [digitsAux_succ]
      by_cases h10 : n < 10
      · rw [if_pos h10]
        simpa using hk
      · rw [if_neg h10]
        rw [List.length_append]
        have hk2 : 2 ≤ k := by
          rcases Nat.lt_or_ge k 2 with hlt | hge
          · have hkeq : k = 1 := by omega
            rw [hkeq] at hn
            simp at hn
            omega
          · exact hge
        have hpow : 10 ^ k = 10 ^ (k - 1) * 10 := by
          rw [← pow_succ]
          congr 1
          omega
        have hdiv : n / 10 < 10 ^ (k - 1) := by
          rw [Nat.div_lt_iff_lt_mul (by norm_num)]
          omega
        have := ih (n / 10) (k - 1) (by omega) hdiv
        simp only [List.length_singleton]
        omega

lemma digitsOf_length_le4 (n : ℕ) (hn : n < 10000) : (digitsOf n).length ≤ 4 :=
  digitsAux_length_le (n + 1) n 4 (by norm_num) (by norm_num [hn])

lemma pad4_length (n : ℕ) (hn : n < 10000) : (pad4 n).length = 4 := by
  unfold pad4
  rw [List.length_append, List.length_replicate]
  have := digitsOf_length_le4 n hn
  omega

lemma pad4_chars (n : ℕ) (c : Char) (hc : c ∈ pad4 n) :
    ∃ m, m < 10 ∧ c = Nat.digitChar m := by
  unfold pad4 at hc
  rcases List.mem_append.mp hc with h | h
  · rcases List.eq_of_mem_replicate h with rfl
    exact ⟨0, by norm_num, rfl⟩
  · exact digitsOf_chars n c h

lemma dropWhile_append_neg {α : Type} (p : α → Bool) (l1 l2 : List α) (a : α)
    (ha : p a = false) :
    List.dropWhile p (l1 ++ a :: l2) = List.dropWhile p l1 ++ a :: l2 := by
  induction l1 with
  | nil => simp [List.dropWhile_cons, ha]
  | cons x xs ih => by_cases hx : p x <;> simp [List.dropWhile_cons, hx, ih]

lemma rstripC_append_cons (c d : Char) (hne : (d == c) = false) (A F : List Char) :
    rstripC c (A ++ d :: F) = A ++ d :: rstripC c F := by
  unfold rstripC
  have h1 : (A ++ d :: F).reverse = F.reverse ++ d :: A.reverse := by
    rw [List.reverse_append, List.reverse_cons, List.append_assoc, List.singleton_append]
  rw [h1]
  have h2 : List.dropWhile (· == c) (F.reverse ++ d :: A.reverse) =
      List.dropWhile (· == c) F.reverse ++ d :: A.reverse :=
    dropWhile_append_neg (· == c) F.reverse A.reverse d hne
  rw [h2, List.reverse_append, List.reverse_cons, List.reverse_reverse,
    List.append_assoc, List.singleton_append]

lemma rstripC_subset (c : Char) (l : List Char) (x : Char) (hx : x ∈ rstripC c l) :
    x ∈ l := by
  unfold rstripC at hx
  rw [List.mem_reverse] at hx
  have := (List.dropWhile_sublist (l := l.reverse) (p := (· == c))).subset hx
  rwa [List.mem_reverse] at this

lemma rstripC_length_le (c : Char) (l : List Char) : (rstripC c l).length ≤ l.length := by
  unfold rstripC
  rw [List.length_reverse]
  have := (List.dropWhile_sublist (l := l.reverse) (p := (· == c))).length_le
  rwa [List.length_reverse] at this

lemma head?_dropWhile_false {α : Type} (p : α → Bool) :
    ∀ (l : List α) (a : α), (List.dropWhile p l).head? = some a → p a = false := by
  intro l
  induction l with
  | nil =>
      intro a ha
      simp [List.dropWhile] at ha
  | cons x xs ih =>
      intro a ha
      rw [List.dropWhile_cons] at ha
      by_cases hx : p x
      · rw [if_pos hx] at ha
        exact ih a ha
      · rw [if_neg hx] at ha
        simp only [List.head?_cons, Option.some.injEq] at ha
        subst ha
        exact Bool.eq_false_iff.mpr hx

lemma getLast?_rstripC (c : Char) (l : List Char) (a : Char)
    (ha : (rstripC c l).getLast? = some a) : (a == c) = false := by
  unfold rstripC at ha
  rw [List.getLast?_reverse] at ha
  exact head?_dropWhile_false _ _ a ha

/-- The trimming pipeline applied to a rendered fixed-point numeral
`sign ++ digits ++ "." ++ 4 fractional digits` always yields exactly one
decimal point with one to four digits after it, and the fractional part
never ends in a redundant zero (except for the mandatory `".0"` restored
when trimming removed the point). -/
lemma trim_spec (sign D F : List Char)
    (hsign : sign = [] ∨ sign = ['-'])
    (hD : D ≠ [])
    (hDc : ∀ c ∈ D, ∃ m, m < 10 ∧ c = Nat.digitChar m)
    (hFc : ∀ c ∈ F, ∃ m, m < 10 ∧ c = Nat.digitChar m)
    (hF4 : F.length = 4) :
    ∃ pre post : List Char,
      (if '.' ∈ rstripC '.' (rstripC '0' ((sign ++ D) ++ '.' :: F))
       then rstripC '.' (rstripC '0' ((sign ++ D) ++ '.' :: F))
       else rstripC '.' (rstripC '0' ((sign ++ D) ++ '.' :: F)) ++ ['.', '0'])
        = pre ++ '.' :: post ∧
      post ≠ [] ∧ post.length ≤ 4 ∧ '.' ∉ pre ∧ '.' ∉ post ∧
      (post = ['0'] ∨ post.getLast? ≠ some '0') := by
  have hdotA : '.' ∉ sign ++ D := by
    intro hmem
    rcases List.mem_append.mp hmem with h | h
    · rcases hsign with hs | hs <;> rw [hs] at h <;> simp at h
    · rcases hDc _ h with ⟨m, hm, hc⟩
      exact digitChar_ne_dot m hm hc.symm
  have hdotF : ∀ x ∈ F, x ≠ '.' := by
    intro x hx
    rcases hFc _ hx with ⟨m, hm, hc⟩
    rw [hc]
    exact digitChar_ne_dot m hm
  have hs1 : rstripC '0' ((sign ++ D) ++ '.' :: F) =
      (sign ++ D) ++ '.' :: rstripC '0' F :=
    rstripC_append_cons '0' '.' (by decide) _ _
  by_cases hFe : rstripC '0' F = []
  · -- all four fractional digits were stripped: the point is removed and
    -- ".0" is restored
    rcases List.eq_nil_or_concat D with hDnil | ⟨D0, d, hDd⟩
    · exact absurd hDnil hD
    have hd : d ∈ D := by
      rw [hDd]
      simp
    have hdd : (d == '.') = false := by
      rcases hDc _ hd with ⟨m, hm, hc⟩
      rw [beq_eq_false_iff_ne, hc]
      exact digitChar_ne_dot m hm
    have hsplit : (sign ++ D) ++ '.' :: rstripC '0' F = (sign ++ D0) ++ d :: ['.'] := by
      rw [hFe, hDd]
      simp [List.concat_eq_append]
    have hs2 : rstripC '.' (rstripC '0' ((sign ++ D) ++ '.' :: F)) = sign ++ D := by
      rw [hs1, hsplit, rstripC_append_cons '.' d hdd]
      have hdot1 : rstripC '.' ['.'] = [] := by decide
      rw [hdot1, hDd]
      simp [List.concat_eq_append]
    refine ⟨sign ++ D, ['0'], ?_, by simp, by simp, hdotA, by decide, Or.inl rfl⟩
    rw [hs2, if_neg hdotA]
  · -- at least one fractional digit survives: the point is kept
    rcases List.eq_nil_or_concat (rstripC '0' F) with hnil | ⟨F0, d, hFd⟩
    · exact absurd hnil hFe
    have hdmem : d ∈ F := by
      apply rstripC_subset '0' F
      rw [hFd]
      simp
    have hdd : (d == '.') = false := by
      rw [beq_eq_false_iff_ne]
      exact hdotF d hdmem
    have hs2 : rstripC '.' (rstripC '0' ((sign ++ D) ++ '.' :: F)) =
        (sign ++ D) ++ '.' :: rstripC '0' F := by
      have hform : (sign ++ D) ++ '.' :: rstripC '0' F =
          ((sign ++ D) ++ '.' :: F0) ++ d :: [] := by
        rw [hFd]
        simp [List.concat_eq_append]
      rw [hs1, hform, rstripC_append_cons '.' d hdd]
      rw [show rstripC '.' ([] : List Char) = [] from rfl]
    have hdot : '.' ∈ (sign ++ D) ++ '.' :: rstripC '0' F := by
      simp
    refine ⟨sign ++ D, rstripC '0' F, ?_, hFe, ?_, hdotA, ?_, Or.inr ?_⟩
    · rw [hs2, if_pos hdot]
    · rw [← hF4]
      exact rstripC_length_le '0' F
    · intro hmem
      exact hdotF '.' (rstripC_subset '0' F '.' hmem) rfl
    · intro hlast
      have := getLast?_rstripC '0' F '0' hlast
      simp at this

/-- The structural content of the price formatter, for every rational
input. -/
lemma priceStrChars_spec (q : ℚ) :
    ∃ pre post : List Char,
      priceStrChars q = pre ++ '.' :: post ∧ post ≠ [] ∧ post.length ≤ 4 ∧
      '.' ∉ pre ∧ '.' ∉ post ∧
      (post = ['0'] ∨ post.getLast? ≠ some '0') := by
  have hbridge : priceStrChars q =
      (if '.' ∈ rstripC '.' (rstripC '0' (format4fChars q))
       then rstripC '.' (rstripC '0' (format4fChars q))
       else rstripC '.' (rstripC '0' (format4fChars q)) ++ ['.', '0']) := rfl
  have hfmt : format4fChars q =
      ((if roundHalfEven (q * 10000) < 0 then ['-'] else []) ++
        digitsOf ((roundHalfEven (q * 10000)).natAbs / 10000)) ++
        '.' :: pad4 ((roundHalfEven (q * 10000)).natAbs % 10000) := rfl
  rcases trim_spec
      (if roundHalfEven (q * 10000) < 0 then ['-'] else [])
      (digitsOf ((roundHalfEven (q * 10000)).natAbs / 10000))
      (pad4 ((roundHalfEven (q * 10000)).natAbs % 10000))
      (by by_cases h : roundHalfEven (q * 10000) < 0 <;> simp [h])
      (digitsOf_ne_nil _)
      (fun c hc => digitsOf_chars _ c hc)
      (fun c hc => pad4_chars _ c hc)
      (pad4_length _ (Nat.mod_lt _ (by norm_num)))
    with ⟨pre, post, h1, h2, h3, h4, h5, h6⟩
  refine ⟨pre, post, ?_, h2, h3, h4, h5, h6⟩
  rw [hbridge, hfmt]
  exact h1

/-! ### C8: price string formatting -/

/-- C8: the order translator formats the unit price with up to 4
fractional digits, trimming trailing zeros while always keeping at least
one digit after the decimal point (restoring ".0" when trimming removes
the point); in particular 0.5 formats to "0.5", 0.45 to "0.45" and 1.0
to "1.0". -/
theorem C8_price_formatting :
    priceStr (1/2) = "0.5" ∧ priceStr (9/20) = "0.45" ∧ priceStr 1 = "1.0" ∧
    ∀ q : ℚ, ∃ pre post : List Char,
      priceStrChars q = pre ++ '.' :: post ∧ post ≠ [] ∧ post.length ≤ 4 ∧
      '.' ∉ pre ∧ '.' ∉ post ∧
      (post = ['0'] ∨ post.getLast? ≠ some '0') :=
  ⟨by with_unfolding_all decide, by with_unfolding_all decide,
   by with_unfolding_all decide, priceStrChars_spec⟩

end Basket
